import Mathlib

/-!
Verification of the rotating score-ranked equity portfolio simulator.

The Lean definitions below are shallow embeddings of the Python sources:

* src/src/portfolio/portfolio.py  — Portfolio ledger (execute, evict, total_equity)
* src/src/strategy/ranker.py      — rank_universe and RankerConfig
* src/src/strategy/allocator.py   — allocate_capital and AllocationConfig
* src/src/strategy/scoring.py     — score_symbol and ScoringConfig
* src/src/regimes.py              — classify_regime
* src/src/monte_carlo.py          — monte_carlo_paths
* src/src/engine/quant_simulator.py — monte_carlo_forecast

Modelling conventions:
* Python floats are modelled as exact numbers (ℚ for the ledger, ranking and
  allocation code, ℝ where the source computes square roots, logs and
  exponentials).  Python float NaN appears in the sources only through pandas
  rolling windows and dropna; where it matters (regimes, scoring, ranking) a
  missing value is modelled as Option.none and the asymmetric NaN comparison
  semantics of Python (NaN > x and NaN <= x are both False) is embedded
  explicitly.
* A Python dict is modelled as an association list with unique keys, in
  insertion order.  dictSet replaces the value of an existing key in place and
  appends a fresh key at the end; dictPop removes a key; dictGet looks a key
  up.  Since a Python dict cannot hold a duplicated key, removing or replacing
  every matching entry agrees with the source on all reachable states.
* Randomness (np.random.normal) is modelled by an explicitly passed draw
  function, applied to the distribution parameters the source passes to the
  sampler.
-/

/-! ## Python dict as an association list -/

def dictGet {β : Type} : List (String × β) → String → Option β
  | [], _ => none
  | q :: rest, k => if q.1 = k then some q.2 else dictGet rest k

def dictSet {β : Type} : List (String × β) → String → β → List (String × β)
  | [], k, v => [(k, v)]
  | q :: rest, k, v => if q.1 = k then (k, v) :: rest else q :: dictSet rest k v

def dictPop {β : Type} : List (String × β) → String → List (String × β)
  | [], _ => []
  | q :: rest, k => if q.1 = k then dictPop rest k else q :: dictPop rest k

theorem dictGet_mem {β : Type} {l : List (String × β)} {k : String} {v : β}
    (h : dictGet l k = some v) : (k, v) ∈ l := by
  induction l with
  | nil => simp [dictGet] at h
  | cons q rest ih =>
    rw [dictGet] at h
    by_cases hk : q.1 = k
    · rw [if_pos hk] at h
      rcases q with ⟨a, b⟩
      injection h with hbv
      simp only at hk
      subst hk; subst hbv
      exact List.mem_cons_self _ _
    · rw [if_neg hk] at h
      exact List.mem_cons_of_mem _ (ih h)

theorem dictGet_dictPop {β : Type} (l : List (String × β)) (k x : String) :
    dictGet (dictPop l k) x = if x = k then none else dictGet l x := by
  induction l with
  | nil => simp [dictGet, dictPop]
  | cons q rest ih =>
    rw [dictPop]
    by_cases hqk : q.1 = k
    · rw [if_pos hqk, ih]
      by_cases hxk : x = k
      · simp [hxk]
      · have hqx : ¬ q.1 = x := by rw [hqk]; exact fun h => hxk h.symm
        simp [hxk, dictGet, hqx]
    · rw [if_neg hqk, dictGet]
      by_cases hqx : q.1 = x
      · have hxk : ¬ x = k := fun h => hqk (hqx.trans h)
        simp [hqx, hxk, dictGet]
      · rw [if_neg hqx, ih, dictGet, if_neg hqx]

theorem dictGet_dictSet {β : Type} (l : List (String × β)) (k x : String) (v : β) :
    dictGet (dictSet l k v) x = if x = k then some v else dictGet l x := by
  induction l with
  | nil =>
    by_cases hxk : x = k
    · simp [dictSet, dictGet, hxk]
    · have hkx : ¬ k = x := fun h => hxk h.symm
      simp [dictSet, dictGet, hxk, hkx]
  | cons q rest ih =>
    rw [dictSet]
    by_cases hqk : q.1 = k
    · rw [if_pos hqk]
      by_cases hxk : x = k
      · simp [dictGet, hxk]
      · have hkx : ¬ k = x := fun h => hxk h.symm
        have hqx : ¬ q.1 = x := by rw [hqk]; exact hkx
        simp [dictGet, hkx, hxk, hqx]
    · rw [if_neg hqk, dictGet]
      by_cases hqx : q.1 = x
      · have hxk : ¬ x = k := fun h => hqk (hqx.trans h)
        simp [hqx, hxk, dictGet]
      · rw [if_neg hqx, ih, dictGet, if_neg hqx]

theorem dictGet_eq_none_iff {β : Type} (l : List (String × β)) (k : String) :
    dictGet l k = none ↔ k ∉ l.map Prod.fst := by
  induction l with
  | nil => simp [dictGet]
  | cons q rest ih =>
    by_cases hqk : q.1 = k
    · subst hqk
      simp [dictGet]
    · have hkq : ¬ k = q.1 := fun h => hqk h.symm
      simp [dictGet, hqk, ih, hkq]

/-! ## Portfolio ledger (src/src/portfolio/portfolio.py)

A trade-log record is the tuple (symbol, side, quantity, price) appended by
execute and evict.  The source fields max_position_pct and price_history are
never read by the code under verification and are omitted from the state. -/

abbrev Trade : Type := String × String × ℤ × ℚ

structure Portfolio where
  cash : ℚ
  positions : List (String × ℤ)
  transaction_cost : ℚ
  trade_log : List Trade
deriving DecidableEq

/-- Portfolio.__init__: full initial capital, empty positions and log. -/
def Portfolio.init (initial_capital : ℚ) (transaction_cost : ℚ) : Portfolio :=
  { cash := initial_capital, positions := [], transaction_cost := transaction_cost,
    trade_log := [] }

/-- Portfolio.total_equity: equity = cash; for symbol, shares in positions:
equity += shares * prices.get(symbol, 0). -/
def Portfolio.total_equity (p : Portfolio) (prices : List (String × ℚ)) : ℚ :=
  p.positions.foldl (fun equity q => equity + (q.2 : ℚ) * ((dictGet prices q.1).getD 0)) p.cash

/-- Portfolio.execute.  position_size is an optional argument defaulting to
None; the source computes shares_to_buy = position_size or 0, which maps None
to 0 and keeps any integer (0 stays 0, so Option.getD 0 is exact).  For SELL
the source pops the entire position and ignores position_size. -/
def Portfolio.execute (p : Portfolio) (symbol : String) (price : ℚ) (signal : String)
    (position_size : Option ℤ) (transaction_cost : Option ℚ) : Portfolio :=
  if price ≤ 0 then p
  else
    let tc := transaction_cost.getD p.transaction_cost
    if signal = "BUY" then
      let shares_to_buy := position_size.getD 0
      let cost := (shares_to_buy : ℚ) * price * (1 + tc)
      if cost ≤ p.cash ∧ 0 < shares_to_buy then
        { p with
          cash := p.cash - cost,
          positions := dictSet p.positions symbol
            (((dictGet p.positions symbol).getD 0) + shares_to_buy),
          trade_log := p.trade_log ++ [(symbol, "BUY", shares_to_buy, price)] }
      else p
    else if signal = "SELL" then
      match dictGet p.positions symbol with
      | none => p
      | some shares_to_sell =>
        { p with
          positions := dictPop p.positions symbol,
          cash := p.cash + (shares_to_sell : ℚ) * price * (1 - tc),
          trade_log := p.trade_log ++ [(symbol, "SELL", shares_to_sell, price)] }
    else p

/-- Portfolio.evict: sells the entire position at the given price when the
symbol is held and a price is supplied (the source guard is
symbol in self.positions and price is not None; the price sign is not
checked). -/
def Portfolio.evict (p : Portfolio) (symbol : String) (price : Option ℚ) : Portfolio :=
  match dictGet p.positions symbol, price with
  | some shares, some pr =>
    { p with
      positions := dictPop p.positions symbol,
      cash := p.cash + (shares : ℚ) * pr * (1 - p.transaction_cost),
      trade_log := p.trade_log ++ [(symbol, "SELL", shares, pr)] }
  | _, _ => p

/-! ## Claim C1: solvency under execute and evict sequences

A call sequence against the ledger is a list of execute and evict calls with
their Python arguments.  callOk is the amended domain condition: a per-call
transaction-cost override lies in [0, 1] and an evict price, when supplied, is
non-negative.  The counterexample below shows the condition is needed: the
source guards execute against non-positive prices but evict does not check the
price sign, so an evict at a negative price drives cash below zero. -/

inductive LedgerCall where
  | ex : String → ℚ → String → Option ℤ → Option ℚ → LedgerCall
  | ev : String → Option ℚ → LedgerCall

def applyCall (p : Portfolio) : LedgerCall → Portfolio
  | .ex symbol price signal sz tco => p.execute symbol price signal sz tco
  | .ev symbol price => p.evict symbol price

def applyCalls (p : Portfolio) (calls : List LedgerCall) : Portfolio :=
  calls.foldl applyCall p

def callOk : LedgerCall → Prop
  | .ex _ _ _ _ none => True
  | .ex _ _ _ _ (some t) => 0 ≤ t ∧ t ≤ 1
  | .ev _ none => True
  | .ev _ (some x) => 0 ≤ x

def LedgerInv (p : Portfolio) : Prop :=
  0 ≤ p.cash ∧ 0 ≤ p.transaction_cost ∧ p.transaction_cost ≤ 1 ∧
    ∀ q ∈ p.positions, (0:ℤ) ≤ q.2

theorem mem_dictSet {β : Type} {l : List (String × β)} {k : String} {v : β} {q : String × β}
    (h : q ∈ dictSet l k v) : q = (k, v) ∨ q ∈ l := by
  induction l with
  | nil =>
    simp only [dictSet, List.mem_singleton] at h
    exact Or.inl h
  | cons r rest ih =>
    rw [dictSet] at h
    by_cases hrk : r.1 = k
    · rw [if_pos hrk] at h
      rcases List.mem_cons.mp h with h1 | h2
      · exact Or.inl h1
      · exact Or.inr (List.mem_cons_of_mem _ h2)
    · rw [if_neg hrk] at h
      rcases List.mem_cons.mp h with h1 | h2
      · exact Or.inr (h1 ▸ List.mem_cons_self _ _)
      · rcases ih h2 with h3 | h4
        · exact Or.inl h3
        · exact Or.inr (List.mem_cons_of_mem _ h4)

theorem mem_dictPop {β : Type} {l : List (String × β)} {k : String} {q : String × β}
    (h : q ∈ dictPop l k) : q ∈ l := by
  induction l with
  | nil => simp [dictPop] at h
  | cons r rest ih =>
    rw [dictPop] at h
    by_cases hrk : r.1 = k
    · rw [if_pos hrk] at h
      exact List.mem_cons_of_mem _ (ih h)
    · rw [if_neg hrk] at h
      rcases List.mem_cons.mp h with h1 | h2
      · exact h1 ▸ List.mem_cons_self _ _
      · exact List.mem_cons_of_mem _ (ih h2)

theorem execute_LedgerInv (p : Portfolio) (symbol : String) (price : ℚ) (signal : String)
    (sz : Option ℤ) (tco : Option ℚ) (h : LedgerInv p)
    (htc : ∀ t, tco = some t → 0 ≤ t ∧ t ≤ 1) :
    LedgerInv (p.execute symbol price signal sz tco) := by
  obtain ⟨hcash, htc0, htc1, hpos⟩ := h
  have htcd0 : 0 ≤ tco.getD p.transaction_cost := by
    cases tco with
    | none => exact htc0
    | some t => exact (htc t rfl).1
  have htcd1 : tco.getD p.transaction_cost ≤ 1 := by
    cases tco with
    | none => exact htc1
    | some t => exact (htc t rfl).2
  simp only [Portfolio.execute]
  by_cases hp : price ≤ 0
  · rw [if_pos hp]; exact ⟨hcash, htc0, htc1, hpos⟩
  · rw [if_neg hp]
    by_cases hsig : signal = "BUY"
    · rw [if_pos hsig]
      by_cases hgo : ((sz.getD 0 : ℚ) * price * (1 + tco.getD p.transaction_cost) ≤ p.cash
          ∧ 0 < sz.getD 0)
      · rw [if_pos hgo]
        refine ⟨sub_nonneg.mpr hgo.1, htc0, htc1, ?_⟩
        intro q hq
        rcases mem_dictSet hq with hq1 | hq2
        · have hold : (0:ℤ) ≤ (dictGet p.positions symbol).getD 0 := by
            cases hd : dictGet p.positions symbol with
            | none => simp
            | some o => simpa using hpos _ (dictGet_mem hd)
          rw [hq1]
          exact add_nonneg hold (le_of_lt hgo.2)
        · exact hpos q hq2
      · rw [if_neg hgo]; exact ⟨hcash, htc0, htc1, hpos⟩
    · rw [if_neg hsig]
      by_cases hsell : signal = "SELL"
      · rw [if_pos hsell]
        cases hd : dictGet p.positions symbol with
        | none => exact ⟨hcash, htc0, htc1, hpos⟩
        | some sh =>
          refine ⟨?_, htc0, htc1, ?_⟩
          · have hsh : (0:ℤ) ≤ sh := hpos _ (dictGet_mem hd)
            have hpr : (0:ℚ) ≤ price := le_of_lt (lt_of_not_le hp)
            have hnn : (0:ℚ) ≤ (sh:ℚ) * price * (1 - tco.getD p.transaction_cost) :=
              mul_nonneg (mul_nonneg (by exact_mod_cast hsh) hpr) (by linarith)
            simp only
            linarith
          · intro q hq; exact hpos q (mem_dictPop hq)
      · rw [if_neg hsell]; exact ⟨hcash, htc0, htc1, hpos⟩

theorem evict_LedgerInv (p : Portfolio) (symbol : String) (price : Option ℚ)
    (h : LedgerInv p) (hpr : ∀ x, price = some x → 0 ≤ x) :
    LedgerInv (p.evict symbol price) := by
  obtain ⟨hcash, htc0, htc1, hpos⟩ := h
  simp only [Portfolio.evict]
  cases hd : dictGet p.positions symbol with
  | none => exact ⟨hcash, htc0, htc1, hpos⟩
  | some sh =>
    cases price with
    | none => exact ⟨hcash, htc0, htc1, hpos⟩
    | some pr =>
      refine ⟨?_, htc0, htc1, ?_⟩
      · have hsh : (0:ℤ) ≤ sh := hpos _ (dictGet_mem hd)
        have hnn : (0:ℚ) ≤ (sh:ℚ) * pr * (1 - p.transaction_cost) :=
          mul_nonneg (mul_nonneg (by exact_mod_cast hsh) (hpr pr rfl)) (by linarith)
        simp only
        linarith
      · intro q hq; exact hpos q (mem_dictPop hq)

theorem applyCalls_LedgerInv (calls : List LedgerCall) (p : Portfolio)
    (h : LedgerInv p) (hcalls : ∀ c ∈ calls, callOk c) :
    LedgerInv (applyCalls p calls) := by
  induction calls generalizing p with
  | nil => exact h
  | cons c rest ih =>
    have hc : callOk c := hcalls c (List.mem_cons_self _ _)
    have hstep : LedgerInv (applyCall p c) := by
      cases c with
      | ex symbol price signal sz tco =>
        refine execute_LedgerInv p symbol price signal sz tco h ?_
        intro t ht
        cases tco with
        | none => exact absurd ht (by simp)
        | some t0 =>
          injection ht with ht0
          exact ht0 ▸ hc
      | ev symbol price =>
        refine evict_LedgerInv p symbol price h ?_
        intro x hx
        cases price with
        | none => exact absurd hx (by simp)
        | some x0 =>
          injection hx with hx0
          exact hx0 ▸ hc
    exact ih (applyCall p c) hstep (fun d hd => hcalls d (List.mem_cons_of_mem _ hd))

/-- Claim C1 (amended): for every sequence of execute and evict calls starting
from a non-negative initial capital, provided the configured transaction cost
and every per-call override lie in [0, 1] and every supplied evict price is
non-negative, cash stays non-negative after every call (any prefix of a call
sequence being itself a call sequence); in particular a BUY whose total cost
shares * price * (1 + transaction_cost) exceeds cash is rejected whole.  The
price-sign condition on evict is forced by c1_counterexample. -/
theorem c1_cash_nonneg (initial_capital tc : ℚ) (calls : List LedgerCall)
    (h0 : 0 ≤ initial_capital) (h1 : 0 ≤ tc) (h2 : tc ≤ 1)
    (hcalls : ∀ c ∈ calls, callOk c) :
    0 ≤ (applyCalls (Portfolio.init initial_capital tc) calls).cash :=
  (applyCalls_LedgerInv calls _ ⟨h0, h1, h2, by simp [Portfolio.init]⟩ hcalls).1

/-- Witness for C1: a zero-cost portfolio of 100 buys 5 shares at price 10 and
evicts them at price 12; cash stays non-negative. -/
theorem c1_cash_nonneg_witness :
    0 ≤ (applyCalls (Portfolio.init 100 0)
      [.ex "A" 10 "BUY" (some 5) none, .ev "A" (some 12)]).cash := by
  refine c1_cash_nonneg 100 0 _ (by norm_num) (by norm_num) (by norm_num) ?_
  intro c hc
  rcases List.mem_cons.mp hc with rfl | hc
  · trivial
  rcases List.mem_cons.mp hc with rfl | hc
  · norm_num [callOk]
  · simp at hc

/-- Counterexample to C1 as stated: from non-negative capital 100 (zero
transaction cost), buying 10 shares at price 10 and then evicting at the
unchecked negative price -5 leaves cash at -50: Portfolio.evict does not
validate the price sign, so cash does not remain non-negative over every
execute/evict sequence. -/
theorem c1_counterexample :
    (applyCalls (Portfolio.init 100 0)
      [.ex "X" 10 "BUY" (some 10) none, .ev "X" (some (-5))]).cash = -50 := by
  norm_num [applyCalls, applyCall, Portfolio.execute, Portfolio.evict, Portfolio.init,
    dictGet, dictSet, dictPop]

theorem foldl_add_map_sum {α : Type} (g : α → ℚ) (l : List α) (c : ℚ) :
    l.foldl (fun acc x => acc + g x) c = c + (l.map g).sum := by
  induction l generalizing c with
  | nil => simp
  | cons x xs ih => simp [ih (c + g x)]; ring

/-- Claim C2: total_equity(prices) equals cash plus the sum over held
positions of shares times the supplied price, a held symbol absent from the
price mapping contributing zero; the function is total (the source uses
prices.get(symbol, 0) and cannot raise). -/
theorem c2_total_equity_eq (p : Portfolio) (prices : List (String × ℚ)) :
    p.total_equity prices
      = p.cash + (p.positions.map (fun q => (q.2 : ℚ) * ((dictGet prices q.1).getD 0))).sum := by
  unfold Portfolio.total_equity
  exact foldl_add_map_sum _ _ _

/-- Claim C5: an invalid trade (non-positive price; BUY with non-positive
computed share count; BUY whose cost exceeds cash) is silently declined:
execute returns the state unchanged (cash, positions and trade_log intact) and,
being a total function, raises nothing. -/
theorem c5_invalid_trade_declined (p : Portfolio) (symbol : String) (price : ℚ)
    (signal : String) (position_size : Option ℤ) (transaction_cost : Option ℚ) :
    (price ≤ 0 → p.execute symbol price signal position_size transaction_cost = p) ∧
    (signal = "BUY" → position_size.getD 0 ≤ 0 →
      p.execute symbol price signal position_size transaction_cost = p) ∧
    (signal = "BUY" →
      p.cash < (position_size.getD 0 : ℚ) * price * (1 + transaction_cost.getD p.transaction_cost) →
      p.execute symbol price signal position_size transaction_cost = p) := by
  refine ⟨fun hp => by simp [Portfolio.execute, hp], fun hb hsz => ?_, fun hb hcost => ?_⟩
  · unfold Portfolio.execute
    by_cases hp : price ≤ 0
    · simp [hp]
    · simp only [hp, if_false, hb, if_true]
      rw [if_neg]
      rintro ⟨-, hpos⟩
      exact absurd hsz (not_le.mpr hpos)
  · unfold Portfolio.execute
    by_cases hp : price ≤ 0
    · simp [hp]
    · simp only [hp, if_false, hb, if_true]
      rw [if_neg]
      rintro ⟨hle, -⟩
      exact absurd hcost (not_lt.mpr hle)

/-- Witness for C5 at concrete invalid trades: negative price, zero share
count, and a 200-share BUY at price 10 against 100 of cash. -/
theorem c5_invalid_trade_declined_witness :
    ((Portfolio.init 100 0).execute "A" (-1) "BUY" (some 5) none = Portfolio.init 100 0) ∧
    ((Portfolio.init 100 0).execute "A" 10 "BUY" (some 0) none = Portfolio.init 100 0) ∧
    ((Portfolio.init 100 0).execute "A" 10 "BUY" (some 200) none = Portfolio.init 100 0) := by
  refine ⟨(c5_invalid_trade_declined _ _ _ _ _ _).1 (by norm_num),
          (c5_invalid_trade_declined _ _ _ _ _ _).2.1 rfl (by norm_num),
          (c5_invalid_trade_declined _ _ _ _ _ _).2.2 rfl ?_⟩
  norm_num [Portfolio.init]

/-! ## Ranker (src/src/strategy/ranker.py)

Scores arrive as a dict symbol -> float whose values may be None or -infinity;
both are dropped by the source filter (score is not None and
score != float("-inf")), so a score value is modelled as Option over a linearly
ordered score type, none standing for the two dropped cases.  Python sorted is
stable, so the (stable) insertion sort of Mathlib models it; the claims proved
here depend only on the sorted list being a permutation of its input.
ranked[: top_n] is List.take; the Python slice ranked[-bottom_n :] returns the
whole list when bottom_n = 0 and the last min(bottom_n, len) elements
otherwise, which lastSlice reproduces. -/

structure RankerConfig (α : Type) where
  top_n : ℕ := 5
  bottom_n : ℕ := 5
  min_score : Option α := none

def rankerClean {α : Type} (scores : List (String × Option α)) : List (String × α) :=
  scores.filterMap (fun q => q.2.map (fun v => (q.1, v)))

def lastSlice {α : Type} (l : List α) (n : ℕ) : List α :=
  if n = 0 then l else l.drop (l.length - n)

def rankerPool {α : Type} [LinearOrder α] (scores : List (String × Option α))
    (cfg : RankerConfig α) : List (String × α) :=
  match cfg.min_score with
  | none => rankerClean scores
  | some m => (rankerClean scores).filter (fun q => decide (m ≤ q.2))

def rank_universe {α : Type} [LinearOrder α] (scores : List (String × Option α))
    (cfg : RankerConfig α) : List String × List String :=
  if scores.isEmpty then ([], [])
  else
    let clean := rankerClean scores
    if clean.isEmpty then ([], [])
    else
      let pool := match cfg.min_score with
        | none => clean
        | some m => clean.filter (fun q => decide (m ≤ q.2))
      if pool.isEmpty then ([], [])
      else
        let ranked := List.insertionSort (fun a b => b.2 ≤ a.2) pool
        ((ranked.take cfg.top_n).map Prod.fst, (lastSlice ranked cfg.bottom_n).map Prod.fst)

theorem rank_universe_eq {α : Type} [LinearOrder α] (scores : List (String × Option α))
    (cfg : RankerConfig α) :
    rank_universe scores cfg =
      if (rankerPool scores cfg).isEmpty then ([], [])
      else
        (((List.insertionSort (fun a b => b.2 ≤ a.2) (rankerPool scores cfg)).take
            cfg.top_n).map Prod.fst,
         (lastSlice (List.insertionSort (fun a b => b.2 ≤ a.2) (rankerPool scores cfg))
            cfg.bottom_n).map Prod.fst) := by
  by_cases hs : scores.isEmpty
  · have hnil : scores = [] := List.isEmpty_iff.mp hs
    subst hnil
    cases hm : cfg.min_score <;>
      simp [rank_universe, rankerPool, rankerClean, hm]
  · by_cases hc : (rankerClean scores).isEmpty
    · have hcnil : rankerClean scores = [] := List.isEmpty_iff.mp hc
      cases hm : cfg.min_score <;>
        simp [rank_universe, rankerPool, hs, hcnil, hm]
    · by_cases hp : (rankerPool scores cfg).isEmpty
      · cases hm : cfg.min_score with
        | none =>
          rw [rankerPool, hm] at hp
          exact absurd hp hc
        | some m =>
          rw [rankerPool, hm] at hp
          simp [rank_universe, rankerPool, hs, hc, hm, hp]
      · cases hm : cfg.min_score with
        | none =>
          rw [rankerPool, hm] at hp ⊢
          simp [rank_universe, hs, hc, hm, hp]
        | some m =>
          rw [rankerPool, hm] at hp ⊢
          simp [rank_universe, hs, hc, hm, hp]

theorem rankerClean_keys_sublist {α : Type} (scores : List (String × Option α)) :
    List.Sublist ((rankerClean scores).map Prod.fst) (scores.map Prod.fst) := by
  induction scores with
  | nil => simp [rankerClean]
  | cons q rest ih =>
    cases hq : q.2 with
    | none =>
      simp only [rankerClean, List.filterMap_cons, hq, Option.map_none', List.map_cons]
      exact (ih).cons _
    | some v =>
      simp only [rankerClean, List.filterMap_cons, hq, Option.map_some', List.map_cons]
      exact (ih).cons₂ _

theorem rankerPool_keys_sublist {α : Type} [LinearOrder α] (scores : List (String × Option α))
    (cfg : RankerConfig α) :
    List.Sublist ((rankerPool scores cfg).map Prod.fst) (scores.map Prod.fst) := by
  cases hm : cfg.min_score with
  | none =>
    rw [rankerPool, hm]
    exact rankerClean_keys_sublist scores
  | some m =>
    rw [rankerPool, hm]
    exact ((List.filter_sublist _).map _).trans (rankerClean_keys_sublist scores)

theorem mem_rankerPool_scores {α : Type} [LinearOrder α] {scores : List (String × Option α)}
    {cfg : RankerConfig α} {q : String × α} (h : q ∈ rankerPool scores cfg) :
    (q.1, some q.2) ∈ scores := by
  have hclean : q ∈ rankerClean scores := by
    cases hm : cfg.min_score with
    | none => rw [rankerPool, hm] at h; exact h
    | some m => rw [rankerPool, hm] at h; exact List.mem_of_mem_filter h
  rw [rankerClean, List.mem_filterMap] at hclean
  obtain ⟨a, ha, hfa⟩ := hclean
  cases hv : a.2 with
  | none => rw [hv] at hfa; simp at hfa
  | some v =>
    rw [hv] at hfa
    simp only [Option.map_some', Option.some.injEq] at hfa
    have h1 : a.1 = q.1 := congrArg Prod.fst hfa
    have h2 : v = q.2 := congrArg Prod.snd hfa
    have hmem : (a.1, a.2) ∈ scores := ha
    rw [hv, h1, h2] at hmem
    exact hmem

theorem rank_universe_mem_scores {α : Type} [LinearOrder α]
    {scores : List (String × Option α)} {cfg : RankerConfig α} {s : String}
    (h : s ∈ (rank_universe scores cfg).1 ∨ s ∈ (rank_universe scores cfg).2) :
    ∃ v, (s, some v) ∈ scores := by
  rw [rank_universe_eq] at h
  by_cases hp : (rankerPool scores cfg).isEmpty
  · simp [hp] at h
  · simp only [hp, Bool.false_eq_true, if_false] at h
    have hq : ∃ q ∈ List.insertionSort (fun a b : String × α => b.2 ≤ a.2)
        (rankerPool scores cfg), q.1 = s := by
      rcases h with h | h
      · obtain ⟨q, hq1, hq2⟩ := List.mem_map.mp h
        exact ⟨q, List.mem_of_mem_take hq1, hq2⟩
      · obtain ⟨q, hq1, hq2⟩ := List.mem_map.mp h
        rw [lastSlice] at hq1
        by_cases hb0 : cfg.bottom_n = 0
        · rw [if_pos hb0] at hq1
          exact ⟨q, hq1, hq2⟩
        · rw [if_neg hb0] at hq1
          exact ⟨q, List.mem_of_mem_drop hq1, hq2⟩
    obtain ⟨q, hqmem, hqs⟩ := hq
    have hpool : q ∈ rankerPool scores cfg :=
      (List.perm_insertionSort _ _).mem_iff.mp hqmem
    exact ⟨q.2, hqs ▸ mem_rankerPool_scores hpool⟩

/-- Counterexample to C3 as stated: with a single scored symbol A and the
default top_n = bottom_n = 5, the slice ranked[: 5] and the slice ranked[-5 :]
both return the whole ranked list, so A is simultaneously an entry candidate
and an eviction candidate: the two lists are not disjoint for every score
mapping and config. -/
theorem c3_counterexample :
    "A" ∈ (rank_universe [("A", some (1:ℚ))] {}).1 ∧
    "A" ∈ (rank_universe [("A", some (1:ℚ))] {}).2 := by
  decide

/-- Claim C3 (amended): the top list and the bottom list of rank_universe are
disjoint provided the score dict keys are distinct, bottom_n is at least 1
(the Python slice ranked[-0 :] is the whole list), and at least
top_n + bottom_n symbols survive the None / -infinity / min-score filters.
With fewer surviving symbols the two slices overlap, as c3_counterexample
shows. -/
theorem c3_top_bottom_disjoint {α : Type} [LinearOrder α]
    (scores : List (String × Option α)) (cfg : RankerConfig α)
    (hnd : (scores.map Prod.fst).Nodup) (hb : 1 ≤ cfg.bottom_n)
    (hlen : cfg.top_n + cfg.bottom_n ≤ (rankerPool scores cfg).length) :
    ∀ s, s ∈ (rank_universe scores cfg).1 → s ∉ (rank_universe scores cfg).2 := by
  intro s hs hsb
  rw [rank_universe_eq] at hs hsb
  have hpoolne : (rankerPool scores cfg).isEmpty = false := by
    rcases hp : rankerPool scores cfg with _ | ⟨q, rest⟩
    · rw [hp] at hlen
      simp at hlen
      omega
    · rfl
  simp only [hpoolne, Bool.false_eq_true, if_false] at hs hsb
  have hperm : List.Perm
      (List.insertionSort (fun a b : String × α => b.2 ≤ a.2) (rankerPool scores cfg))
      (rankerPool scores cfg) := List.perm_insertionSort _ _
  have hndpool : ((rankerPool scores cfg).map Prod.fst).Nodup :=
    (rankerPool_keys_sublist scores cfg).nodup hnd
  have hndranked :
      ((List.insertionSort (fun a b : String × α => b.2 ≤ a.2)
        (rankerPool scores cfg)).map Prod.fst).Nodup :=
    ((hperm.map Prod.fst).symm).nodup hndpool
  have hlenr : (List.insertionSort (fun a b : String × α => b.2 ≤ a.2)
      (rankerPool scores cfg)).length = (rankerPool scores cfg).length := hperm.length_eq
  rw [List.map_take] at hs
  rw [lastSlice, if_neg (by omega), List.map_drop] at hsb
  have hmn : cfg.top_n ≤ (List.insertionSort (fun a b : String × α => b.2 ≤ a.2)
      (rankerPool scores cfg)).length - cfg.bottom_n := by omega
  exact List.disjoint_take_drop hndranked hmn hs hsb

/-- Witness for C3 at two distinctly scored symbols with top_n = bottom_n = 1:
A enters the top list and therefore stays out of the bottom list. -/
theorem c3_top_bottom_disjoint_witness :
    "A" ∉ (rank_universe [("A", some (2:ℚ)), ("B", some (1:ℚ))]
      { top_n := 1, bottom_n := 1, min_score := none }).2 := by
  refine c3_top_bottom_disjoint _ _ (by decide) (by decide) (by decide) "A" (by decide)

/-! ## Allocation engine (src/src/strategy/allocator.py)

allocate_capital is embedded in its four effective stages: eviction of the
bottom-ranked symbols, slot computation, entry into top-ranked symbols, and
the rebalancing pass over held positions.  The optional risk manager is
modelled as an optional per-symbol multiplier riskMul standing for
risk_mgr.scale_position(1.0, hist_vol(symbol)); None reproduces
size_multiplier = 1.0.  Python floor division int(a // b) on floats is the
mathematical floor of a / b.  The source iterates the rebalancing loop over
portfolio.positions.keys(); the embedding iterates over the snapshot of keys
at loop entry (CPython would raise RuntimeError at the step after a mid-loop
pop; every property proved here concerns a symbol absent from that loop or a
single-key loop, where the two readings agree). -/

structure AllocationConfig where
  max_positions : ℕ := 5
  target_weight : ℚ := 0.2
  min_trade_value : ℚ := 50

def evictBottom (prices : List (String × ℚ)) : Portfolio → List String → Portfolio
  | p, [] => p
  | p, symbol :: rest =>
    evictBottom prices
      (if (dictGet p.positions symbol).isSome then p.evict symbol (dictGet prices symbol) else p)
      rest

/-- size_multiplier and shares of the entry loop: 1.0 without a risk manager,
otherwise the scale_position multiplier of the symbol, then
shares = int(alloc_per_position * size_multiplier // price). -/
def entryShares (alloc_per_position : ℚ) (riskMul : Option (String → ℚ))
    (symbol : String) (price : ℚ) : ℤ :=
  ⌊alloc_per_position * (match riskMul with | none => 1 | some f => f symbol) / price⌋

def enterTop (prices : List (String × ℚ)) (cfg : AllocationConfig)
    (riskMul : Option (String → ℚ)) (alloc_per_position : ℚ) :
    Portfolio → List String → ℤ → Portfolio
  | p, [], _ => p
  | p, symbol :: rest, available_slots =>
    if (dictGet p.positions symbol).isSome then
      enterTop prices cfg riskMul alloc_per_position p rest available_slots
    else if available_slots ≤ 0 then p
    else
      match dictGet prices symbol with
      | none => enterTop prices cfg riskMul alloc_per_position p rest available_slots
      | some price =>
        if price ≤ 0 then enterTop prices cfg riskMul alloc_per_position p rest available_slots
        else if entryShares alloc_per_position riskMul symbol price ≤ 0
            ∨ (entryShares alloc_per_position riskMul symbol price : ℚ) * price
                < cfg.min_trade_value then
          enterTop prices cfg riskMul alloc_per_position p rest available_slots
        else
          enterTop prices cfg riskMul alloc_per_position
            (p.execute symbol price "BUY"
              (some (entryShares alloc_per_position riskMul symbol price)) none)
            rest (available_slots - 1)

/-- shares_delta of the rebalancing loop:
int((equity * target_weight - held * price) // price). -/
def rebalanceShares (equity : ℚ) (cfg : AllocationConfig) (held : ℤ) (price : ℚ) : ℤ :=
  ⌊(equity * cfg.target_weight - (held : ℚ) * price) / price⌋

def rebalanceStep (prices : List (String × ℚ)) (cfg : AllocationConfig) (equity : ℚ) :
    Portfolio → List String → Portfolio
  | p, [] => p
  | p, symbol :: rest =>
    rebalanceStep prices cfg equity
      (match dictGet prices symbol with
       | none => p
       | some price =>
         if price ≤ 0 then p
         else if |equity * cfg.target_weight - ((dictGet p.positions symbol).getD 0 : ℚ) * price|
             < cfg.min_trade_value then p
         else if rebalanceShares equity cfg ((dictGet p.positions symbol).getD 0) price = 0 then p
         else
           p.execute symbol price
             (if 0 < rebalanceShares equity cfg ((dictGet p.positions symbol).getD 0) price
              then "BUY" else "SELL")
             (some |rebalanceShares equity cfg ((dictGet p.positions symbol).getD 0) price|) none)
      rest

def allocate_capital (p : Portfolio) (top_symbols bottom_symbols : List String)
    (prices : List (String × ℚ)) (cfg : AllocationConfig)
    (riskMul : Option (String → ℚ)) : Portfolio :=
  let p1 := evictBottom prices p bottom_symbols
  let available_slots : ℤ := max 0 ((cfg.max_positions : ℤ) - (p1.positions.length : ℤ))
  let equity := p1.total_equity prices
  let alloc_per_position := equity * cfg.target_weight
  let p4 := enterTop prices cfg riskMul alloc_per_position p1 top_symbols available_slots
  rebalanceStep prices cfg equity p4 (p4.positions.map Prod.fst)

/-- Claim C4 is contradicted by the code: a portfolio holding 10 shares of X
at price 10 with no cash (equity 100, target weight 0.2, zero transaction
cost) has value gap |20 - 100| = 80 over the 50 minimum and implied share
delta floor(-80 / 10) = -8, so by the claim the rebalancing SELL should leave
10 - 8 = 2 shares.  The allocator passes position_size = 8, but
Portfolio.execute ignores position_size for SELL and pops the entire
position: the final state holds 0 shares of X with a single SELL of all 10
shares logged and all 100 credited. -/
theorem c4_rebalance_sells_entire_position :
    dictGet (allocate_capital
        { cash := 0, positions := [("X", 10)], transaction_cost := 0, trade_log := [] }
        [] [] [("X", 10)] { max_positions := 5, target_weight := 0.2, min_trade_value := 50 }
        none).positions "X" = none ∧
    (allocate_capital
        { cash := 0, positions := [("X", 10)], transaction_cost := 0, trade_log := [] }
        [] [] [("X", 10)] { max_positions := 5, target_weight := 0.2, min_trade_value := 50 }
        none).trade_log = [("X", "SELL", 10, 10)] ∧
    (allocate_capital
        { cash := 0, positions := [("X", 10)], transaction_cost := 0, trade_log := [] }
        [] [] [("X", 10)] { max_positions := 5, target_weight := 0.2, min_trade_value := 50 }
        none).cash = 100 := by
  norm_num [allocate_capital, evictBottom, enterTop, rebalanceStep, rebalanceShares,
    entryShares, Portfolio.total_equity, Portfolio.execute, dictGet, dictSet, dictPop]
  decide

/-! ## Claim C6: eviction of bottom-ranked held symbols

The frame lemmas below track, for a fixed symbol X, its position entry and the
X-restricted trade log across each stage of allocate_capital. -/

theorem execute_frame (p : Portfolio) (symbol : String) (price : ℚ) (signal : String)
    (sz : Option ℤ) (tco : Option ℚ) (X : String) (hne : symbol ≠ X) :
    dictGet (p.execute symbol price signal sz tco).positions X = dictGet p.positions X ∧
    (p.execute symbol price signal sz tco).trade_log.filter (fun t => decide (t.1 = X))
      = p.trade_log.filter (fun t => decide (t.1 = X)) := by
  simp only [Portfolio.execute]
  by_cases hp : price ≤ 0
  · rw [if_pos hp]; exact ⟨rfl, rfl⟩
  rw [if_neg hp]
  by_cases hsig : signal = "BUY"
  · rw [if_pos hsig]
    by_cases hgo : ((sz.getD 0 : ℚ) * price * (1 + tco.getD p.transaction_cost) ≤ p.cash
        ∧ 0 < sz.getD 0)
    · rw [if_pos hgo]
      refine ⟨?_, ?_⟩
      · show dictGet (dictSet p.positions symbol _) X = dictGet p.positions X
        rw [dictGet_dictSet, if_neg (fun h => hne h.symm)]
      · show (p.trade_log ++ [(symbol, "BUY", sz.getD 0, price)]).filter _ = _
        simp [List.filter_append, List.filter, hne]
    · rw [if_neg hgo]; exact ⟨rfl, rfl⟩
  · rw [if_neg hsig]
    by_cases hsell : signal = "SELL"
    · rw [if_pos hsell]
      cases hd : dictGet p.positions symbol with
      | none => exact ⟨rfl, rfl⟩
      | some sh =>
        refine ⟨?_, ?_⟩
        · show dictGet (dictPop p.positions symbol) X = dictGet p.positions X
          rw [dictGet_dictPop, if_neg (fun h => hne h.symm)]
        · show (p.trade_log ++ [(symbol, "SELL", sh, price)]).filter _ = _
          simp [List.filter_append, List.filter, hne]
    · rw [if_neg hsell]; exact ⟨rfl, rfl⟩

theorem evict_frame (p : Portfolio) (symbol : String) (price : Option ℚ) (X : String)
    (hne : symbol ≠ X) :
    dictGet (p.evict symbol price).positions X = dictGet p.positions X ∧
    (p.evict symbol price).trade_log.filter (fun t => decide (t.1 = X))
      = p.trade_log.filter (fun t => decide (t.1 = X)) := by
  simp only [Portfolio.evict]
  cases hd : dictGet p.positions symbol with
  | none => cases price <;> exact ⟨rfl, rfl⟩
  | some sh =>
    cases price with
    | none => exact ⟨rfl, rfl⟩
    | some pr =>
      refine ⟨?_, ?_⟩
      · show dictGet (dictPop p.positions symbol) X = dictGet p.positions X
        rw [dictGet_dictPop, if_neg (fun h => hne h.symm)]
      · show (p.trade_log ++ [(symbol, "SELL", sh, pr)]).filter _ = _
        simp [List.filter_append, List.filter, hne]

theorem evict_self (p : Portfolio) (X : String) (s : ℤ) (pr : ℚ)
    (hX : dictGet p.positions X = some s) :
    dictGet (p.evict X (some pr)).positions X = none ∧
    (p.evict X (some pr)).trade_log = p.trade_log ++ [(X, "SELL", s, pr)] ∧
    (p.evict X (some pr)).cash = p.cash + (s : ℚ) * pr * (1 - p.transaction_cost) := by
  have hev : p.evict X (some pr) =
      { p with
        positions := dictPop p.positions X,
        cash := p.cash + (s : ℚ) * pr * (1 - p.transaction_cost),
        trade_log := p.trade_log ++ [(X, "SELL", s, pr)] } := by
    simp only [Portfolio.evict, hX]
  rw [hev]
  refine ⟨?_, rfl, rfl⟩
  rw [dictGet_dictPop]
  simp

theorem evictBottom_frame (prices : List (String × ℚ)) (X : String) (bottom : List String) :
    ∀ p : Portfolio, dictGet p.positions X = none →
      dictGet (evictBottom prices p bottom).positions X = none ∧
      (evictBottom prices p bottom).trade_log.filter (fun t => decide (t.1 = X))
        = p.trade_log.filter (fun t => decide (t.1 = X)) := by
  induction bottom with
  | nil => intro p hX; exact ⟨hX, rfl⟩
  | cons Y rest ih =>
    intro p hX
    rw [evictBottom]
    by_cases hY : (dictGet p.positions Y).isSome
    · rw [if_pos hY]
      by_cases hYX : Y = X
      · subst hYX
        rw [hX] at hY
        simp at hY
      · have hfr := evict_frame p Y (dictGet prices Y) X hYX
        obtain ⟨h1, h2⟩ := ih (p.evict Y (dictGet prices Y)) (hfr.1.trans hX)
        exact ⟨h1, h2.trans hfr.2⟩
    · rw [if_neg hY]; exact ih p hX

theorem evictBottom_evicts (prices : List (String × ℚ)) (X : String) (s : ℤ) (pr : ℚ)
    (hpr : dictGet prices X = some pr) (bottom : List String) :
    ∀ p : Portfolio, X ∈ bottom → dictGet p.positions X = some s →
      dictGet (evictBottom prices p bottom).positions X = none ∧
      (evictBottom prices p bottom).trade_log.filter (fun t => decide (t.1 = X))
        = p.trade_log.filter (fun t => decide (t.1 = X)) ++ [(X, "SELL", s, pr)] := by
  induction bottom with
  | nil => intro p hmem _; cases hmem
  | cons Y rest ih =>
    intro p hmem hX
    rw [evictBottom]
    by_cases hYX : Y = X
    · subst hYX
      rw [if_pos (by rw [hX]; rfl), hpr]
      have hev := evict_self p Y s pr hX
      have hfr := evictBottom_frame prices Y rest _ hev.1
      refine ⟨hfr.1, ?_⟩
      rw [hfr.2, hev.2.1, List.filter_append]
      simp [List.filter]
    · have hmem2 : X ∈ rest := by
        rcases List.mem_cons.mp hmem with h | h
        · exact absurd h.symm hYX
        · exact h
      by_cases hY : (dictGet p.positions Y).isSome
      · rw [if_pos hY]
        have hfr := evict_frame p Y (dictGet prices Y) X hYX
        obtain ⟨h1, h2⟩ := ih _ hmem2 (hfr.1.trans hX)
        rw [hfr.2] at h2
        exact ⟨h1, h2⟩
      · rw [if_neg hY]; exact ih p hmem2 hX

theorem enterTop_frame (prices : List (String × ℚ)) (cfg : AllocationConfig)
    (riskMul : Option (String → ℚ)) (alloc_per_position : ℚ) (X : String)
    (top : List String) :
    ∀ (p : Portfolio) (slots : ℤ), X ∉ top →
      dictGet (enterTop prices cfg riskMul alloc_per_position p top slots).positions X
        = dictGet p.positions X ∧
      (enterTop prices cfg riskMul alloc_per_position p top slots).trade_log.filter
          (fun t => decide (t.1 = X))
        = p.trade_log.filter (fun t => decide (t.1 = X)) := by
  induction top with
  | nil => intro p slots _; exact ⟨rfl, rfl⟩
  | cons Y rest ih =>
    intro p slots hX
    have hYX : Y ≠ X := fun h => hX (h ▸ List.mem_cons_self _ _)
    have hXrest : X ∉ rest := fun h => hX (List.mem_cons_of_mem _ h)
    rw [enterTop]
    by_cases h1 : (dictGet p.positions Y).isSome
    · rw [if_pos h1]; exact ih p slots hXrest
    rw [if_neg h1]
    by_cases h2 : slots ≤ 0
    · rw [if_pos h2]; exact ⟨rfl, rfl⟩
    rw [if_neg h2]
    split
    · exact ih p slots hXrest
    next price hpy =>
      by_cases h3 : price ≤ 0
      · rw [if_pos h3]; exact ih p slots hXrest
      rw [if_neg h3]
      by_cases h4 : entryShares alloc_per_position riskMul Y price ≤ 0
          ∨ (entryShares alloc_per_position riskMul Y price : ℚ) * price < cfg.min_trade_value
      · rw [if_pos h4]; exact ih p slots hXrest
      · rw [if_neg h4]
        have hfr := execute_frame p Y price "BUY"
          (some (entryShares alloc_per_position riskMul Y price)) none X hYX
        obtain ⟨g1, g2⟩ := ih (p.execute Y price "BUY"
          (some (entryShares alloc_per_position riskMul Y price)) none) (slots - 1) hXrest
        exact ⟨g1.trans hfr.1, g2.trans hfr.2⟩

theorem rebalanceStep_frame (prices : List (String × ℚ)) (cfg : AllocationConfig)
    (equity : ℚ) (X : String) (keys0 : List String) :
    ∀ p : Portfolio, X ∉ keys0 →
      dictGet (rebalanceStep prices cfg equity p keys0).positions X = dictGet p.positions X ∧
      (rebalanceStep prices cfg equity p keys0).trade_log.filter (fun t => decide (t.1 = X))
        = p.trade_log.filter (fun t => decide (t.1 = X)) := by
  induction keys0 with
  | nil => intro p _; exact ⟨rfl, rfl⟩
  | cons Y rest ih =>
    intro p hX
    have hYX : Y ≠ X := fun h => hX (h ▸ List.mem_cons_self _ _)
    have hXrest : X ∉ rest := fun h => hX (List.mem_cons_of_mem _ h)
    rw [rebalanceStep]
    set q : Portfolio := (match dictGet prices Y with
       | none => p
       | some price =>
         if price ≤ 0 then p
         else if |equity * cfg.target_weight - ((dictGet p.positions Y).getD 0 : ℚ) * price|
             < cfg.min_trade_value then p
         else if rebalanceShares equity cfg ((dictGet p.positions Y).getD 0) price = 0 then p
         else
           p.execute Y price
             (if 0 < rebalanceShares equity cfg ((dictGet p.positions Y).getD 0) price
              then "BUY" else "SELL")
             (some |rebalanceShares equity cfg ((dictGet p.positions Y).getD 0) price|) none)
      with hq
    have hstep : dictGet q.positions X = dictGet p.positions X ∧
        q.trade_log.filter (fun t => decide (t.1 = X))
          = p.trade_log.filter (fun t => decide (t.1 = X)) := by
      rw [hq]
      split
      · exact ⟨rfl, rfl⟩
      next price hpy =>
        by_cases h3 : price ≤ 0
        · rw [if_pos h3]; exact ⟨rfl, rfl⟩
        rw [if_neg h3]
        by_cases h4 : |equity * cfg.target_weight - ((dictGet p.positions Y).getD 0 : ℚ) * price|
            < cfg.min_trade_value
        · rw [if_pos h4]; exact ⟨rfl, rfl⟩
        rw [if_neg h4]
        by_cases h5 : rebalanceShares equity cfg ((dictGet p.positions Y).getD 0) price = 0
        · rw [if_pos h5]; exact ⟨rfl, rfl⟩
        · rw [if_neg h5]
          exact execute_frame p Y price _ _ none X hYX
    obtain ⟨g1, g2⟩ := ih q hXrest
    exact ⟨g1.trans hstep.1, g2.trans hstep.2⟩

/-- Claim C6 (amended): when a held symbol X appears in bottom_symbols, a
price for X is supplied, and X is not simultaneously in top_symbols (the two
lists can overlap, C3), allocate_capital leaves X with no position and appends
exactly one SELL trade for X, for the full previously held quantity at the
supplied price; Portfolio.evict credits cash by shares * price *
(1 - transaction_cost).  Without a supplied price the eviction silently does
nothing, as c6_counterexample shows, which is what forces the amendment. -/
theorem c6_evict_bottom (p : Portfolio) (top bottom : List String)
    (prices : List (String × ℚ)) (cfg : AllocationConfig) (riskMul : Option (String → ℚ))
    (X : String) (s : ℤ) (pr : ℚ)
    (hX : dictGet p.positions X = some s) (hmem : X ∈ bottom)
    (hpr : dictGet prices X = some pr) (htop : X ∉ top) :
    dictGet (allocate_capital p top bottom prices cfg riskMul).positions X = none ∧
    (allocate_capital p top bottom prices cfg riskMul).trade_log.filter
        (fun t => decide (t.1 = X))
      = p.trade_log.filter (fun t => decide (t.1 = X)) ++ [(X, "SELL", s, pr)] ∧
    (p.evict X (some pr)).cash = p.cash + (s : ℚ) * pr * (1 - p.transaction_cost) := by
  simp only [allocate_capital]
  set p1 := evictBottom prices p bottom with hp1
  set slots : ℤ := max 0 ((cfg.max_positions : ℤ) - (p1.positions.length : ℤ)) with hslots
  set equity := p1.total_equity prices with hequity
  set p4 := enterTop prices cfg riskMul (equity * cfg.target_weight) p1 top slots with hp4
  have h1 := evictBottom_evicts prices X s pr hpr bottom p hmem hX
  rw [← hp1] at h1
  have h2 := enterTop_frame prices cfg riskMul (equity * cfg.target_weight) X top p1 slots htop
  rw [← hp4] at h2
  have hXgone : dictGet p4.positions X = none := h2.1.trans h1.1
  have hXnotkeys : X ∉ p4.positions.map Prod.fst := (dictGet_eq_none_iff _ _).mp hXgone
  have h3 := rebalanceStep_frame prices cfg equity X (p4.positions.map Prod.fst) p4 hXnotkeys
  exact ⟨h3.1.trans hXgone, h3.2.trans (h2.2.trans h1.2), (evict_self p X s pr hX).2.2⟩

/-- Counterexample to C6 as stated: a portfolio holding 10 shares of X with X
in bottom_symbols but no price supplied for X keeps all 10 shares and logs no
trade, because Portfolio.evict requires price is not None and otherwise does
nothing. -/
theorem c6_counterexample :
    dictGet (allocate_capital
        { cash := 0, positions := [("X", 10)], transaction_cost := 0, trade_log := [] }
        [] ["X"] [] { max_positions := 5, target_weight := 0.2, min_trade_value := 50 }
        none).positions "X" = some 10 ∧
    (allocate_capital
        { cash := 0, positions := [("X", 10)], transaction_cost := 0, trade_log := [] }
        [] ["X"] [] { max_positions := 5, target_weight := 0.2, min_trade_value := 50 }
        none).trade_log = [] := by
  norm_num [allocate_capital, evictBottom, enterTop, rebalanceStep, Portfolio.total_equity,
    Portfolio.evict, dictGet]

/-- Witness for C6: holding 10 shares of X at price 10 with zero transaction
cost, bottom = [X] and top empty, the allocation leaves no X position, logs
the single SELL of 10 shares at 10, and the evict credits 100. -/
theorem c6_evict_bottom_witness :
    dictGet (allocate_capital
        { cash := 0, positions := [("X", 10)], transaction_cost := 0, trade_log := [] }
        [] ["X"] [("X", 10)] { max_positions := 5, target_weight := 0.2, min_trade_value := 50 }
        none).positions "X" = none ∧
    (allocate_capital
        { cash := 0, positions := [("X", 10)], transaction_cost := 0, trade_log := [] }
        [] ["X"] [("X", 10)] { max_positions := 5, target_weight := 0.2, min_trade_value := 50 }
        none).trade_log.filter (fun t => decide (t.1 = "X")) = [("X", "SELL", 10, 10)] ∧
    (Portfolio.evict
        { cash := 0, positions := [("X", 10)], transaction_cost := 0, trade_log := [] }
        "X" (some 10)).cash
      = 0 + (10 : ℚ) * 10 * (1 - 0) := by
  have h := c6_evict_bottom
    { cash := 0, positions := [("X", 10)], transaction_cost := 0, trade_log := [] }
    [] ["X"] [("X", 10)] { max_positions := 5, target_weight := 0.2, min_trade_value := 50 }
    none "X" 10 10 (by decide) (by decide) (by decide) (by decide)
  simpa using h

/-! ## Scoring engine (src/src/strategy/scoring.py)

The scoring pipeline computes square roots (pandas .std with ddof = 1), so it
is embedded over ℝ; the definitions are noncomputable but every branch
condition the claims touch is a decidable test on list lengths.  A pandas
Series is a List ℝ, NaN entries of the raw history are Option.none and
dropna is filterMap id. -/

noncomputable def EPSILON : ℝ := 1e-8

noncomputable def listMean (xs : List ℝ) : ℝ := xs.sum / xs.length

/-- pandas Series.std(): sample standard deviation with ddof = 1. -/
noncomputable def sampleStd (xs : List ℝ) : ℝ :=
  Real.sqrt ((xs.map (fun x => (x - listMean xs) ^ 2)).sum / ((xs.length : ℝ) - 1))

noncomputable def compute_zscore (price : ℝ) (history : List ℝ) : ℝ :=
  if sampleStd history < EPSILON then 0
  else (price - listMean history) / sampleStd history

noncomputable def compute_momentum (history : List ℝ) : ℝ :=
  if history.length < 2 then 0 else history.getLastD 0 / history.headD 0 - 1

/-- Series.pct_change().dropna(): entry i is (x_i - x_im1) / x_im1 with the
leading NaN dropped. -/
noncomputable def pctChange (xs : List ℝ) : List ℝ :=
  List.zipWith (fun prev cur => (cur - prev) / prev) xs xs.tail

noncomputable def compute_volatility (history : List ℝ) : ℝ :=
  if (pctChange history).length = 0 then 0 else sampleStd (pctChange history)

structure ScoringConfig where
  lookback : ℕ := 20
  vol_penalty : ℝ := 1
  regime_multipliers : Option (List (String × ℝ)) := none
  rotation_weight : ℝ := 1
  price_penalty_weight : ℝ := 0.5

noncomputable def DEFAULT_REGIME_MULTIPLIERS : List (String × ℝ) :=
  [("bull", 1.2), ("neutral", 1), ("bear", 0.7)]

/-- score_symbol.  A return value none models float("-inf"), the sentinel for
insufficient history; otherwise the score is
(-z + 0.5 * momentum) / (1 + vol_penalty * vol) * regime_mult *
(1 + rotation_weight * (rotation_score - 0.5)) - price_penalty_weight /
max(price, EPSILON). -/
noncomputable def score_symbol (symbol : String) (price : ℝ) (history : List (Option ℝ))
    (regime : String) (rotation_score : ℝ) (config : ScoringConfig) : Option ℝ :=
  if (history.filterMap id).length < config.lookback then none
  else
    some ((((-(compute_zscore price (history.filterMap id))
          + 0.5 * compute_momentum (history.filterMap id))
        / (1 + config.vol_penalty * compute_volatility (history.filterMap id)))
        * ((dictGet (config.regime_multipliers.getD DEFAULT_REGIME_MULTIPLIERS) regime).getD 1)
        * (1 + config.rotation_weight * (rotation_score - 0.5)))
        - config.price_penalty_weight / max price EPSILON)

/-- Claim C7: a symbol whose NaN-dropped history is shorter than the
configured lookback is scored with the -infinity sentinel (none) without
raising, and a symbol whose score entries are all the sentinel (None or
-infinity, both dropped by the ranker filter) appears in neither the top nor
the bottom list of rank_universe. -/
theorem c7_insufficient_history_excluded :
    (∀ (symbol : String) (price : ℝ) (history : List (Option ℝ)) (regime : String)
        (rotation_score : ℝ) (config : ScoringConfig),
      (history.filterMap id).length < config.lookback →
        score_symbol symbol price history regime rotation_score config = none) ∧
    (∀ (scores : List (String × Option ℚ)) (cfg : RankerConfig ℚ) (s : String),
      (∀ v, (s, v) ∈ scores → v = none) →
        s ∉ (rank_universe scores cfg).1 ∧ s ∉ (rank_universe scores cfg).2) := by
  constructor
  · intro symbol price history regime rotation_score config h
    rw [score_symbol, if_pos h]
  · intro scores cfg s hall
    constructor <;> intro hmem
    · obtain ⟨v, hv⟩ := rank_universe_mem_scores (Or.inl hmem)
      exact Option.noConfusion (hall (some v) hv)
    · obtain ⟨v, hv⟩ := rank_universe_mem_scores (Or.inr hmem)
      exact Option.noConfusion (hall (some v) hv)

/-- Witness for C7: a 10-observation history under lookback 20 scores none,
and a symbol Z scored none next to a validly scored A is in neither output
list. -/
theorem c7_insufficient_history_excluded_witness :
    score_symbol "Z" 100 (List.replicate 10 (some (1:ℝ))) "neutral" 1 {} = none ∧
    ("Z" ∉ (rank_universe [("Z", none), ("A", some (1:ℚ))] {}).1 ∧
     "Z" ∉ (rank_universe [("Z", none), ("A", some (1:ℚ))] {}).2) := by
  refine ⟨c7_insufficient_history_excluded.1 "Z" 100 _ "neutral" 1 {} (by decide),
          c7_insufficient_history_excluded.2 [("Z", none), ("A", some 1)] {} "Z" ?_⟩
  intro v hv
  rcases List.mem_cons.mp hv with h | h
  · exact congrArg Prod.snd h
  rcases List.mem_cons.mp h with h2 | h2
  · have hza : ("Z" : String) = "A" := congrArg Prod.fst h2
    exact absurd hza (by decide)
  · cases h2

/-! ## Regime classifier (src/src/regimes.py)

returns = price_series.pct_change().fillna(0) is total (the leading NaN is
filled with 0); vol and trend are rolling std and rolling mean with the pandas
default min_periods = window, so the first window - 1 entries are NaN,
modelled as none.  Python comparisons against NaN are False on both sides,
which pyGT and pyLE reproduce: a NaN vol fails vol[i] > vol_thresh and fails
vol[i] <= vol_thresh, landing in the final else branch. -/

noncomputable def regimeReturns (price_series : List ℝ) : List ℝ :=
  match price_series with
  | [] => []
  | _ :: _ => 0 :: List.zipWith (fun prev cur => (cur - prev) / prev)
      price_series price_series.tail

noncomputable def rollingStd (rs : List ℝ) (window : ℕ) (i : ℕ) : Option ℝ :=
  if i + 1 < window then none else some (sampleStd ((rs.drop (i + 1 - window)).take window))

noncomputable def rollingMean (rs : List ℝ) (window : ℕ) (i : ℕ) : Option ℝ :=
  if i + 1 < window then none else some (listMean ((rs.drop (i + 1 - window)).take window))

/-- Python float comparison o > c where o may be NaN (none): False on NaN. -/
noncomputable def pyGT (o : Option ℝ) (c : ℝ) : Bool :=
  match o with
  | none => false
  | some x => decide (c < x)

/-- Python float comparison o <= c where o may be NaN (none): False on NaN. -/
noncomputable def pyLE (o : Option ℝ) (c : ℝ) : Bool :=
  match o with
  | none => false
  | some x => decide (x ≤ c)

noncomputable def classify_regime (price_series : List ℝ) (window : ℕ) (vol_thresh : ℝ) :
    List String :=
  (List.range price_series.length).map (fun i =>
    if pyGT (rollingStd (regimeReturns price_series) window i) vol_thresh
        && pyGT ((rollingMean (regimeReturns price_series) window i).map (fun x => |x|)) 0 then
      "high_vol_trend"
    else if pyLE (rollingStd (regimeReturns price_series) window i) vol_thresh then
      "low_vol_range"
    else "mid_vol_trend")

/-- Claim C8 (amended): while the rolling window is not yet full (the first
window - 1 observations) the rolling std and mean are NaN; NaN fails both the
high-volatility test and the low-volatility test, so the label is
mid_vol_trend — not low_vol_range as the claim states, since insufficient
data is NaN, not zero volatility. -/
theorem c8_partial_window_mid_vol (price_series : List ℝ) (window : ℕ) (vol_thresh : ℝ)
    (i : ℕ) (hi : i + 1 < window) (hlen : i < price_series.length) :
    (classify_regime price_series window vol_thresh)[i]? = some "mid_vol_trend" := by
  have hvol : rollingStd (regimeReturns price_series) window i = none := by
    unfold rollingStd; rw [if_pos hi]
  have htrend : rollingMean (regimeReturns price_series) window i = none := by
    unfold rollingMean; rw [if_pos hi]
  rw [classify_regime, List.getElem?_map, List.getElem?_range hlen]
  simp only [Option.map_some']
  rw [hvol, htrend]
  rfl

/-- Witness for C8 at a constant 3-price series with the default window 20:
position 0 is inside the partial window and is labelled mid_vol_trend. -/
theorem c8_partial_window_mid_vol_witness :
    (classify_regime [100, 100, 100] 20 0.02)[0]? = some "mid_vol_trend" := by
  exact c8_partial_window_mid_vol [100, 100, 100] 20 0.02 0 (by norm_num) (by norm_num)

/-- Counterexample to C8 as stated: on a 3-price series with window 20 the
first label is mid_vol_trend, not the claimed low_vol_range: NaN rolling
statistics fail the vol <= vol_thresh test rather than acting as zero
volatility. -/
theorem c8_counterexample :
    (classify_regime [100, 100, 100] 20 0.02)[0]? = some "mid_vol_trend" ∧
    "mid_vol_trend" ≠ "low_vol_range" := by
  constructor
  · have hvol : rollingStd (regimeReturns [100, 100, 100]) 20 0 = none := by
      unfold rollingStd; rw [if_pos (by norm_num)]
    have htrend : rollingMean (regimeReturns [100, 100, 100]) 20 0 = none := by
      unfold rollingMean; rw [if_pos (by norm_num)]
    rw [classify_regime, List.getElem?_map, List.getElem?_range (by norm_num)]
    simp only [Option.map_some']
    rw [hvol, htrend]
    rfl
  · decide

/-! ## Monte Carlo forecasters

src/src/monte_carlo.py (monte_carlo_paths, the version the claim cites) has
no history-length guard and no exception path: it estimates mu and sigma from
the log returns and builds the n_days x n_sims path array for any input.  The
duplicate src/src/engine/quant_simulator.py monte_carlo_forecast carries the
guard: raise ValueError("Insufficient return history") when fewer than 5
return observations exist.  np.random.normal(mu, sigma, ...) is modelled by
the explicitly passed draw function rand applied to (mu, sigma, day, sim). -/

noncomputable def mcLogReturns (series : List ℝ) : List ℝ :=
  List.zipWith (fun prev cur => Real.log (cur / prev)) series series.tail

/-- paths[0] = series.iloc[-1]; paths[t] = paths[t-1] * exp(rand) with
rand drawn from Normal(mu, sigma). -/
noncomputable def mcPathEntry (series : List ℝ) (rand : ℝ → ℝ → ℕ → ℕ → ℝ) : ℕ → ℕ → ℝ
  | 0, _ => series.getLastD 0
  | t + 1, j =>
    mcPathEntry series rand t j
      * Real.exp (rand (listMean (mcLogReturns series)) (sampleStd (mcLogReturns series))
          (t + 1) j)

noncomputable def monte_carlo_paths (series : List ℝ) (n_days n_sims : ℕ)
    (rand : ℝ → ℝ → ℕ → ℕ → ℝ) : List (List ℝ) :=
  (List.range n_days).map (fun t => (List.range n_sims).map (fun j => mcPathEntry series rand t j))

/-- paths[0] = price_series.iloc[-1] * (1 + rand[0]); paths[i] =
paths[i-1] * (1 + rand[i]), with rand drawn from Normal(mu, sigma) of the
simple returns. -/
noncomputable def mcForecastEntry (series : List ℝ) (rand : ℝ → ℝ → ℕ → ℕ → ℝ) : ℕ → ℕ → ℝ
  | 0, j =>
    series.getLastD 0
      * (1 + rand (listMean (pctChange series)) (sampleStd (pctChange series)) 0 j)
  | t + 1, j =>
    mcForecastEntry series rand t j
      * (1 + rand (listMean (pctChange series)) (sampleStd (pctChange series)) (t + 1) j)

noncomputable def monte_carlo_forecast (series : List ℝ) (days simulations : ℕ)
    (rand : ℝ → ℝ → ℕ → ℕ → ℝ) : Except String (List (List ℝ)) :=
  if (pctChange series).length < 5 then Except.error "Insufficient return history"
  else Except.ok ((List.range days).map
    (fun t => (List.range simulations).map (fun j => mcForecastEntry series rand t j)))

/-- Counterexample to C9 as stated: the cited forecaster monte_carlo_paths
(src/src/monte_carlo.py) contains no raise at all; on a 2-price series with a
single return observation (fewer than 5) it still produces the full
n_days x n_sims path ensemble instead of failing. -/
theorem c9_counterexample :
    (monte_carlo_paths [100, 105] 3 2 (fun _ _ _ _ => 0)).length = 3 ∧
    ∀ row ∈ monte_carlo_paths [100, 105] 3 2 (fun _ _ _ _ => 0), row.length = 2 := by
  constructor
  · simp [monte_carlo_paths]
  · intro row hrow
    simp only [monte_carlo_paths, List.mem_map] at hrow
    obtain ⟨t, -, hteq⟩ := hrow
    rw [← hteq]
    simp

/-- Claim C9 (amended): the history guard lives in the duplicate forecaster
monte_carlo_forecast (src/src/engine/quant_simulator.py), which fails with
ValueError("Insufficient return history") whenever fewer than 5 return
observations exist, instead of producing simulated paths. -/
theorem c9_forecast_guard (series : List ℝ) (days simulations : ℕ)
    (rand : ℝ → ℝ → ℕ → ℕ → ℝ) (h : (pctChange series).length < 5) :
    monte_carlo_forecast series days simulations rand
      = Except.error "Insufficient return history" := by
  rw [monte_carlo_forecast, if_pos h]

/-- Witness for C9 at a 2-price series: one return observation triggers the
guard. -/
theorem c9_forecast_guard_witness :
    monte_carlo_forecast [100, 105] 3 2 (fun _ _ _ _ => 0)
      = Except.error "Insufficient return history" :=
  c9_forecast_guard [100, 105] 3 2 (fun _ _ _ _ => 0) (by decide)
